import Mathlib

/-!
# Verification of the cslb dial-interception core

A shallow embedding of the cslb client-side load balancer (Go) into Lean 4:
the SRV view data model and `populate`, the health cache (`setDialResult`,
`isGood`), the selector `bestTarget`, the attempt loop `dialIterate`, the
health-check step of `fetchAndRunHealthCheck`, and `extractHostPort`.

Conventions:
* Go `time.Time` is modelled as `Nat`; the Go zero time is `0`,
  `a.Before b` is `a < b`, `a.After b` is `a > b`, `IsZero` is `= 0`.
* Go maps keyed by strings are modelled as association lists with
  first-match lookup and in-place store.
* `net.ParseIP` (standard library, not repository code) is abstracted as a
  boolean oracle parameter `parseIP`.
* `uint16(x)` conversions are modelled as `x % 65536`.
-/

/-- Fraction of weight given to zero weighted targets (`smallChanceMultiplier`). -/
def smallChanceMultiplier : Nat := 1000

/-- One DNS SRV resource record as delivered by the resolver (`net.SRV`).
In Go the numeric fields are `uint16`. -/
structure SRVRec where
  priority : Nat
  weight : Nat
  port : Nat
  target : String
deriving DecidableEq, Repr

/-- A target stored in an SRV view (`ceTarget`): effective weight, port,
lowercased host. -/
structure ceTarget where
  weight : Nat
  port : Nat
  target : String
deriving DecidableEq, Repr

/-- A priority group of an SRV view (`cePriority`). -/
structure cePriority where
  priority : Nat
  totalWeight : Nat
  targets : List ceTarget
deriving DecidableEq, Repr

/-- A cached SRV view (`ceSRV`); the `lookups` counter is irrelevant here. -/
structure ceSRV where
  expires : Nat
  priorities : List cePriority
  uniqueTargetCount : Nat
deriving DecidableEq, Repr

/-- A health record (`ceHealth`). -/
structure ceHealth where
  expires : Nat
  goodDials : Nat
  failedDials : Nat
  nextDialAttempt : Nat
  lastDialAttempt : Nat
  lastDialStatus : String
  lastHealthCheck : Nat
  lastHealthCheckStatus : String
  url : String
  unHealthy : Bool
deriving DecidableEq, Repr

/-- The configuration durations used by the modelled functions (fields of
the Go `config` struct). -/
structure Config where
  HealthTTL : Nat
  DialVetoDuration : Nat
  FoundSRVTTL : Nat
  NotFoundSRVTTL : Nat
  HealthCheckContentOk : String
deriving DecidableEq, Repr

/-- The health cache map (`healthCache.cache`), as an association list. -/
def HealthCache : Type := List (String × ceHealth)

/-- `makeHealthStoreKey` builds the `host:port` key. -/
def makeHealthStoreKey (host : String) (port : Nat) : String :=
  host ++ ":" ++ Nat.repr port

/-- `ceTarget.healthStoreKey`. -/
def ceTarget.healthStoreKey (t : ceTarget) : String :=
  makeHealthStoreKey t.target t.port

/-- `ceHealth.isGood`: a target can be used iff it is not unhealthy and its
next-dial-attempt time is not after `now`. -/
def ceHealth.isGood (t : ceHealth) (now : Nat) : Bool :=
  !t.unHealthy && decide (t.nextDialAttempt ≤ now)

/-- Go map read `cache[key]`. -/
def hcLookup : HealthCache → String → Option ceHealth
  | [], _ => none
  | (k', h) :: rest, k => if k' = k then some h else hcLookup rest k

/-- Go map write `cache[key] = h` (replace in place, or append when absent). -/
def hcStore : HealthCache → String → ceHealth → HealthCache
  | [], k, h => [(k, h)]
  | (k', h') :: rest, k, h =>
    if k' = k then (k, h) :: rest else (k', h') :: hcStore rest k h

/-- The Go zero value `ceHealth{}`. -/
def emptyHealth : ceHealth :=
  { expires := 0, goodDials := 0, failedDials := 0, nextDialAttempt := 0,
    lastDialAttempt := 0, lastDialStatus := "", lastHealthCheck := 0,
    lastHealthCheckStatus := "", url := "", unHealthy := false }

/-- The record created for a previously unknown target:
`&ceHealth{expires: now.Add(t.HealthTTL)}`. -/
def freshHealth (cfg : Config) (now : Nat) : ceHealth :=
  { emptyHealth with expires := now + cfg.HealthTTL }

/-- `cslb.setDialResult` records the outcome of a dial attempt against
`host:port`; `err = none` is a successful dial, `err = some e` a failed one
with error string `e`.  (The health-check goroutine spawned for a fresh
record is a side effect outside this model.) -/
def setDialResult (cfg : Config) (now : Nat) (host : String) (port : Nat)
    (err : Option String) (hc : HealthCache) : HealthCache :=
  let healthStoreKey := makeHealthStoreKey host port
  let ceh := (hcLookup hc healthStoreKey).getD (freshHealth cfg now)
  let ceh := { ceh with lastDialAttempt := now }
  let ceh :=
    match err with
    | none =>
      { ceh with goodDials := ceh.goodDials + 1, nextDialAttempt := 0,
                 lastDialStatus := "" }
    | some e =>
      { ceh with failedDials := ceh.failedDials + 1,
                 nextDialAttempt := now + cfg.DialVetoDuration,
                 lastDialStatus := e }
  hcStore hc healthStoreKey ceh

-- Association-list lemmas for the health cache.

theorem hcLookup_hcStore_same (hc : HealthCache) (k : String) (h : ceHealth) :
    hcLookup (hcStore hc k h) k = some h := by
  induction hc with
  | nil => simp [hcStore, hcLookup]
  | cons p rest ih =>
    obtain ⟨k', h'⟩ := p
    by_cases hk : k' = k
    · simp [hcStore, hk, hcLookup]
    · simp [hcStore, hk, hcLookup, ih]

theorem hcLookup_hcStore_other (hc : HealthCache) (k k' : String) (h : ceHealth)
    (hne : k' ≠ k) : hcLookup (hcStore hc k h) k' = hcLookup hc k' := by
  induction hc with
  | nil =>
    simp [hcStore, hcLookup]
    exact fun hx => absurd hx.symm hne
  | cons p rest ih =>
    obtain ⟨k₀, h₀⟩ := p
    by_cases hk : k₀ = k
    · subst hk
      have hne' : k₀ ≠ k' := fun hx => hne hx.symm
      simp [hcStore, hcLookup, hne']
    · simp [hcStore, hk, hcLookup, ih]

/-- **C4.** Recording a dial outcome for endpoint `host:port` upserts its
health record: on success (`err = none`) it clears `nextDialAttempt` to
zero and increments `goodDials`; on failure it sets
`nextDialAttempt = now + DialVetoDuration` (strictly greater than `now` by
at least `DialVetoDuration`, which is positive) and increments
`failedDials`; all other records are unchanged. -/
theorem setDialResult_spec (cfg : Config) (now : Nat) (host : String)
    (port : Nat) (err : Option String) (hc : HealthCache)
    (hveto : 0 < cfg.DialVetoDuration) :
    ∃ r, hcLookup (setDialResult cfg now host port err hc)
           (makeHealthStoreKey host port) = some r ∧
      (err = none →
        r.nextDialAttempt = 0 ∧
        r.goodDials =
          ((hcLookup hc (makeHealthStoreKey host port)).getD
            (freshHealth cfg now)).goodDials + 1 ∧
        r.failedDials =
          ((hcLookup hc (makeHealthStoreKey host port)).getD
            (freshHealth cfg now)).failedDials) ∧
      (∀ e, err = some e →
        r.nextDialAttempt = now + cfg.DialVetoDuration ∧
        now < r.nextDialAttempt ∧
        cfg.DialVetoDuration ≤ r.nextDialAttempt - now ∧
        r.failedDials =
          ((hcLookup hc (makeHealthStoreKey host port)).getD
            (freshHealth cfg now)).failedDials + 1 ∧
        r.goodDials =
          ((hcLookup hc (makeHealthStoreKey host port)).getD
            (freshHealth cfg now)).goodDials) ∧
      (∀ k, k ≠ makeHealthStoreKey host port →
        hcLookup (setDialResult cfg now host port err hc) k = hcLookup hc k) := by
  simp only [setDialResult]
  refine ⟨_, hcLookup_hcStore_same .., ?_, ?_, ?_⟩
  · rintro rfl
    simp
  · rintro e rfl
    refine ⟨rfl, ?_, ?_, by simp, rfl⟩
    · exact Nat.lt_add_of_pos_right hveto
    · simp
  · intro k hk
    exact hcLookup_hcStore_other _ _ _ _ hk

/-- Witness for `setDialResult_spec` at concrete inputs. -/
theorem setDialResult_spec_witness :
    0 < (Config.mk 300 60 300 1200 "OK").DialVetoDuration ∧
    (∃ r, hcLookup (setDialResult (Config.mk 300 60 300 1200 "OK") 5 "h" 80
             (some "boom") []) (makeHealthStoreKey "h" 80) = some r ∧
      ((some "boom" : Option String) = none →
        r.nextDialAttempt = 0 ∧
        r.goodDials =
          ((hcLookup [] (makeHealthStoreKey "h" 80)).getD
            (freshHealth (Config.mk 300 60 300 1200 "OK") 5)).goodDials + 1 ∧
        r.failedDials =
          ((hcLookup [] (makeHealthStoreKey "h" 80)).getD
            (freshHealth (Config.mk 300 60 300 1200 "OK") 5)).failedDials) ∧
      (∀ e, (some "boom" : Option String) = some e →
        r.nextDialAttempt = 5 + (Config.mk 300 60 300 1200 "OK").DialVetoDuration ∧
        5 < r.nextDialAttempt ∧
        (Config.mk 300 60 300 1200 "OK").DialVetoDuration ≤ r.nextDialAttempt - 5 ∧
        r.failedDials =
          ((hcLookup [] (makeHealthStoreKey "h" 80)).getD
            (freshHealth (Config.mk 300 60 300 1200 "OK") 5)).failedDials + 1 ∧
        r.goodDials =
          ((hcLookup [] (makeHealthStoreKey "h" 80)).getD
            (freshHealth (Config.mk 300 60 300 1200 "OK") 5)).goodDials) ∧
      (∀ k, k ≠ makeHealthStoreKey "h" 80 →
        hcLookup (setDialResult (Config.mk 300 60 300 1200 "OK") 5 "h" 80
          (some "boom") []) k = hcLookup [] k)) :=
  ⟨by decide, setDialResult_spec (Config.mk 300 60 300 1200 "OK") 5 "h" 80
      (some "boom") [] (by decide)⟩

/-- `strings.ToLower`, modelled per character so that the kernel can
evaluate it (Go hosts are ASCII). -/
def toLowerStr (s : String) : String := ⟨s.data.map Char.toLower⟩

/-- A target built from one SRV record inside `ceSRV.populate`:
`&ceTarget{weight: int(srv.Weight) * smallChanceMultiplier, port: int(srv.Port),
target: strings.ToLower(srv.Target)}`. -/
def mkTarget (srv : SRVRec) : ceTarget :=
  { weight := srv.weight * smallChanceMultiplier, port := srv.port,
    target := toLowerStr srv.target }

/-- The grouping loop of `ceSRV.populate`, processing the (sorted) records
after the first one of the current group: `prio` is the priority of the
group under construction, `acc` its targets so far (reversed), `tw` its
total weight so far.  Records with empty targets are skipped. -/
def buildGroupsAux (prio : Nat) (acc : List ceTarget) (tw : Nat) :
    List SRVRec → List cePriority
  | [] => [{ priority := prio, totalWeight := tw, targets := acc.reverse }]
  | srv :: rest =>
    if srv.target = "" then buildGroupsAux prio acc tw rest
    else if srv.priority = prio then
      buildGroupsAux prio (mkTarget srv :: acc) (tw + (mkTarget srv).weight) rest
    else
      { priority := prio, totalWeight := tw, targets := acc.reverse } ::
        buildGroupsAux srv.priority [mkTarget srv] (mkTarget srv).weight rest

/-- The first phase of `ceSRV.populate`: group the (sorted) records into
priority groups, dropping records with empty targets. -/
def buildGroups : List SRVRec → List cePriority
  | [] => []
  | srv :: rest =>
    if srv.target = "" then buildGroups rest
    else buildGroupsAux srv.priority [mkTarget srv] (mkTarget srv).weight rest

/-- `zeroWeightEntryCount` of the second phase of `ceSRV.populate`. -/
def countZero : List ceTarget → Nat
  | [] => 0
  | t :: rest => (if t.weight = 0 then 1 else 0) + countZero rest

/-- The assignment loop of the second phase of `ceSRV.populate`: give each
zero-weight target the weight `vs`. -/
def applyVerySmall (vs : Nat) : List ceTarget → List ceTarget
  | [] => []
  | t :: rest =>
    (if t.weight = 0 then { t with weight := vs } else t) :: applyVerySmall vs rest

/-- The `verySmall` value computed by `ceSRV.populate` for a group:
`verySmall := cep.totalWeight / smallChanceMultiplier;
verySmall = (verySmall + zeroWeightEntryCount - 1) / zeroWeightEntryCount`,
floored to `1` when that yields `0`. -/
def verySmallOf (cep : cePriority) : Nat :=
  let z := countZero cep.targets
  let verySmall := cep.totalWeight / smallChanceMultiplier
  let verySmall := (verySmall + z - 1) / z
  if verySmall = 0 then 1 else verySmall

/-- The second phase of `ceSRV.populate` on one group: assign a non-zero
weight to targets with an SRV weight of zero, adding each assignment to the
group's total weight. -/
def fixGroup (cep : cePriority) : cePriority :=
  let z := countZero cep.targets
  if z = 0 then cep
  else
    { cep with targets := applyVerySmall (verySmallOf cep) cep.targets,
               totalWeight := cep.totalWeight + z * verySmallOf cep }

/-- The comparator of the `sort.Slice` call in `ceSRV.populate`
(`srvs[i].Priority < srvs[j].Priority` turned into the `≤` order a sort
realises; Go's unstable sort only guarantees priority order, so any
comparator-consistent sort is a faithful model). -/
def leP (a b : SRVRec) : Prop := a.priority ≤ b.priority

instance : DecidableRel leP := fun _ _ => Nat.decLe _ _

instance : IsTotal SRVRec leP := ⟨fun _ _ => Nat.le_total _ _⟩

instance : IsTrans SRVRec leP := ⟨fun _ _ _ => Nat.le_trans⟩

/-- The sort of `ceSRV.populate`. -/
def sortSRV (srvs : List SRVRec) : List SRVRec :=
  List.insertionSort leP srvs

/-- `ceSRV.populate`: sort by priority, group, then apply the zero-weight
policy to every group. -/
def populateView (srvs : List SRVRec) : List cePriority :=
  (buildGroups (sortSRV srvs)).map fixGroup

/-- All `(priority, target)` pairs of a view, in iteration order. -/
def allTargets : List cePriority → List (Nat × ceTarget)
  | [] => []
  | g :: rest => g.targets.map (fun t => (g.priority, t)) ++ allTargets rest

/-- `ceSRV.uniqueTargetKeys`: the distinct `host:port` keys of the view
(Go collects them in a map; the model deduplicates the key list). -/
def uniqueTargetKeys (priorities : List cePriority) : List String :=
  ((allTargets priorities).map (fun pc => pc.2.healthStoreKey)).dedup

/-- The cache-miss path of `cslb.lookupSRV`: the fresh `ceSRV` starts with
`expires = now + NotFoundSRVTTL`; when the resolver returned at least one
record the expiration becomes `now + FoundSRVTTL` and the records are
populated; `uniqueTargetCount` is then computed from the view. -/
def lookupSRVMiss (cfg : Config) (now : Nat) (srvList : List SRVRec) : ceSRV :=
  let cesrv : ceSRV :=
    { expires := now + cfg.NotFoundSRVTTL, priorities := [], uniqueTargetCount := 0 }
  let cesrv :=
    if srvList.length > 0 then
      { cesrv with expires := now + cfg.FoundSRVTTL,
                   priorities := populateView srvList }
    else cesrv
  { cesrv with uniqueTargetCount := (uniqueTargetKeys cesrv.priorities).length }

-- Lemmas about the zero-weight policy (phase two of populate).

/-- Sum of the stored weights of a target list. -/
def sumW (ts : List ceTarget) : Nat := (ts.map (fun t => t.weight)).sum

theorem applyVerySmall_eq_map (vs : Nat) (ts : List ceTarget) :
    applyVerySmall vs ts =
      ts.map (fun t => if t.weight = 0 then { t with weight := vs } else t) := by
  induction ts with
  | nil => rfl
  | cons t rest ih => simp [applyVerySmall, ih]

theorem ceilDiv_le_iff (a z m : Nat) (hz : 0 < z) :
    (a + z - 1) / z ≤ m ↔ a ≤ z * m := by
  rw [Nat.div_le_iff_le_mul_add_pred hz]
  omega

theorem verySmallOf_pos (g : cePriority) : 0 < verySmallOf g := by
  simp only [verySmallOf]
  split
  · exact Nat.one_pos
  · next h => exact Nat.pos_of_ne_zero h

theorem sumW_reverse (ts : List ceTarget) : sumW ts.reverse = sumW ts := by
  simp [sumW, List.sum_reverse]

/-- Phase-one invariant: every group built by `buildGroupsAux` has
`totalWeight` equal to the sum of its target weights, and every stored
weight is a multiple of `smallChanceMultiplier`. -/
theorem buildGroupsAux_weight_inv (rest : List SRVRec) :
    ∀ prio acc tw, tw = sumW acc →
      (∀ t ∈ acc, smallChanceMultiplier ∣ t.weight) →
      ∀ g ∈ buildGroupsAux prio acc tw rest,
        g.totalWeight = sumW g.targets ∧
        ∀ t ∈ g.targets, smallChanceMultiplier ∣ t.weight := by
  induction rest with
  | nil =>
    intro prio acc tw htw hdvd g hg
    simp [buildGroupsAux] at hg
    subst hg
    refine ⟨by simpa [sumW_reverse] using htw, ?_⟩
    intro t ht
    exact hdvd t (List.mem_reverse.mp ht)
  | cons srv rest ih =>
    intro prio acc tw htw hdvd g hg
    by_cases hempty : srv.target = ""
    · rw [buildGroupsAux, if_pos hempty] at hg
      exact ih prio acc tw htw hdvd g hg
    · by_cases hprio : srv.priority = prio
      · rw [buildGroupsAux, if_neg hempty, if_pos hprio] at hg
        refine ih prio (mkTarget srv :: acc) _ ?_ ?_ g hg
        · simp [sumW, mkTarget] at htw ⊢
          omega
        · intro t ht
          rcases List.mem_cons.mp ht with h | h
          · subst h; exact ⟨srv.weight, by simp [mkTarget, Nat.mul_comm]⟩
          · exact hdvd t h
      · rw [buildGroupsAux, if_neg hempty, if_neg hprio] at hg
        rcases List.mem_cons.mp hg with h | h
        · subst h
          refine ⟨by simpa [sumW_reverse] using htw, ?_⟩
          intro t ht
          exact hdvd t (List.mem_reverse.mp ht)
        · refine ih srv.priority [mkTarget srv] _ ?_ ?_ g h
          · simp [sumW, mkTarget]
          · intro t ht
            simp at ht
            subst ht
            exact ⟨srv.weight, by simp [mkTarget, Nat.mul_comm]⟩

theorem buildGroups_weight_inv (l : List SRVRec) :
    ∀ g ∈ buildGroups l,
      g.totalWeight = sumW g.targets ∧
      ∀ t ∈ g.targets, smallChanceMultiplier ∣ t.weight := by
  induction l with
  | nil => intro g hg; simp [buildGroups] at hg
  | cons srv rest ih =>
    intro g hg
    by_cases hempty : srv.target = ""
    · rw [buildGroups, if_pos hempty] at hg
      exact ih g hg
    · rw [buildGroups, if_neg hempty] at hg
      refine buildGroupsAux_weight_inv rest srv.priority [mkTarget srv] _ ?_ ?_ g hg
      · simp [sumW, mkTarget]
      · intro t ht
        simp at ht
        subst ht
        exact ⟨srv.weight, by simp [mkTarget, Nat.mul_comm]⟩

theorem sumW_eq_mul_of_dvd (ts : List ceTarget)
    (h : ∀ t ∈ ts, smallChanceMultiplier ∣ t.weight) :
    sumW ts = smallChanceMultiplier *
      (ts.map (fun t => t.weight / smallChanceMultiplier)).sum := by
  induction ts with
  | nil => simp [sumW]
  | cons t rest ih =>
    have hd := h t (List.mem_cons_self t rest)
    have hrest := ih (fun x hx => h x (List.mem_cons_of_mem _ hx))
    simp only [sumW, List.map_cons, List.sum_cons] at hrest ⊢
    rw [Nat.mul_add, Nat.mul_div_cancel' hd, hrest]

/-- **C3.** For every priority group `g` built by phase one of `populate`
that contains `Z > 0` zero-weight targets, phase two (`fixGroup`, whose
image is what `populateView` installs) assigns each zero-weight target the
effective weight `verySmall = ceil((g.totalWeight / 1000) / Z)`, floored to
`1` when that ceiling is `0`, and adds each assignment to the group total
(so the total grows by `Z * verySmall`); here `g.totalWeight` is the sum of
the nonzero original SRV weights multiplied by `1000`. -/
theorem populate_zero_weight_policy (srvs : List SRVRec) (g : cePriority)
    (hg : g ∈ buildGroups (sortSRV srvs))
    (hz : 0 < countZero g.targets) :
    fixGroup g ∈ populateView srvs ∧
    (fixGroup g).targets =
      g.targets.map
        (fun t => if t.weight = 0 then { t with weight := verySmallOf g } else t) ∧
    (fixGroup g).totalWeight =
      g.totalWeight + countZero g.targets * verySmallOf g ∧
    verySmallOf g =
      max 1 ((g.totalWeight / smallChanceMultiplier + countZero g.targets - 1) /
             countZero g.targets) ∧
    (∀ m : Nat,
      (g.totalWeight / smallChanceMultiplier + countZero g.targets - 1) /
          countZero g.targets ≤ m ↔
        g.totalWeight / smallChanceMultiplier ≤ countZero g.targets * m) ∧
    g.totalWeight =
      smallChanceMultiplier *
        (g.targets.map (fun t => t.weight / smallChanceMultiplier)).sum := by
  obtain ⟨htw, hdvd⟩ := buildGroups_weight_inv _ g hg
  have hzne : countZero g.targets ≠ 0 := Nat.pos_iff_ne_zero.mp hz
  refine ⟨List.mem_map_of_mem fixGroup hg, ?_, ?_, ?_, ?_, ?_⟩
  · simp only [fixGroup, if_neg hzne]
    exact applyVerySmall_eq_map ..
  · simp only [fixGroup, if_neg hzne]
  · simp only [verySmallOf]
    split
    · next h0 => rw [h0]; simp
    · next h0 => exact (Nat.max_eq_right (Nat.pos_of_ne_zero h0)).symm
  · intro m
    exact ceilDiv_le_iff _ _ m hz
  · rw [htw]
    exact sumW_eq_mul_of_dvd _ hdvd

/-- Witness for `populate_zero_weight_policy` on the two-record SRV list
`{weight 1, weight 0}`: the zero-weight target gets effective weight `1`. -/
theorem populate_zero_weight_policy_witness :
    ((⟨0, 1000, [⟨1000, 80, "a"⟩, ⟨0, 80, "b"⟩]⟩ : cePriority) ∈
        buildGroups (sortSRV [⟨0, 1, 80, "a"⟩, ⟨0, 0, 80, "b"⟩]) ∧
      0 < countZero (⟨0, 1000, [⟨1000, 80, "a"⟩, ⟨0, 80, "b"⟩]⟩ : cePriority).targets) ∧
    (fixGroup ⟨0, 1000, [⟨1000, 80, "a"⟩, ⟨0, 80, "b"⟩]⟩ ∈
        populateView [⟨0, 1, 80, "a"⟩, ⟨0, 0, 80, "b"⟩] ∧
      (fixGroup ⟨0, 1000, [⟨1000, 80, "a"⟩, ⟨0, 80, "b"⟩]⟩).targets =
        (⟨0, 1000, [⟨1000, 80, "a"⟩, ⟨0, 80, "b"⟩]⟩ : cePriority).targets.map
          (fun t => if t.weight = 0 then
            { t with weight := verySmallOf ⟨0, 1000, [⟨1000, 80, "a"⟩, ⟨0, 80, "b"⟩]⟩ }
            else t) ∧
      (fixGroup ⟨0, 1000, [⟨1000, 80, "a"⟩, ⟨0, 80, "b"⟩]⟩).totalWeight =
        (⟨0, 1000, [⟨1000, 80, "a"⟩, ⟨0, 80, "b"⟩]⟩ : cePriority).totalWeight +
          countZero (⟨0, 1000, [⟨1000, 80, "a"⟩, ⟨0, 80, "b"⟩]⟩ : cePriority).targets *
            verySmallOf ⟨0, 1000, [⟨1000, 80, "a"⟩, ⟨0, 80, "b"⟩]⟩ ∧
      verySmallOf ⟨0, 1000, [⟨1000, 80, "a"⟩, ⟨0, 80, "b"⟩]⟩ =
        max 1 (((⟨0, 1000, [⟨1000, 80, "a"⟩, ⟨0, 80, "b"⟩]⟩ : cePriority).totalWeight /
                 smallChanceMultiplier +
                 countZero (⟨0, 1000, [⟨1000, 80, "a"⟩, ⟨0, 80, "b"⟩]⟩ : cePriority).targets - 1) /
               countZero (⟨0, 1000, [⟨1000, 80, "a"⟩, ⟨0, 80, "b"⟩]⟩ : cePriority).targets) ∧
      (∀ m : Nat,
        ((⟨0, 1000, [⟨1000, 80, "a"⟩, ⟨0, 80, "b"⟩]⟩ : cePriority).totalWeight /
            smallChanceMultiplier +
            countZero (⟨0, 1000, [⟨1000, 80, "a"⟩, ⟨0, 80, "b"⟩]⟩ : cePriority).targets - 1) /
            countZero (⟨0, 1000, [⟨1000, 80, "a"⟩, ⟨0, 80, "b"⟩]⟩ : cePriority).targets ≤ m ↔
          (⟨0, 1000, [⟨1000, 80, "a"⟩, ⟨0, 80, "b"⟩]⟩ : cePriority).totalWeight /
              smallChanceMultiplier ≤
            countZero (⟨0, 1000, [⟨1000, 80, "a"⟩, ⟨0, 80, "b"⟩]⟩ : cePriority).targets * m) ∧
      (⟨0, 1000, [⟨1000, 80, "a"⟩, ⟨0, 80, "b"⟩]⟩ : cePriority).totalWeight =
        smallChanceMultiplier *
          ((⟨0, 1000, [⟨1000, 80, "a"⟩, ⟨0, 80, "b"⟩]⟩ : cePriority).targets.map
            (fun t => t.weight / smallChanceMultiplier)).sum) :=
  ⟨⟨by decide, by decide⟩,
    populate_zero_weight_policy [⟨0, 1, 80, "a"⟩, ⟨0, 0, 80, "b"⟩]
      ⟨0, 1000, [⟨1000, 80, "a"⟩, ⟨0, 80, "b"⟩]⟩ (by decide) (by decide)⟩

-- Lemmas for the view invariants (C5).

theorem countZero_eq_zero (ts : List ceTarget) :
    countZero ts = 0 ↔ ∀ t ∈ ts, t.weight ≠ 0 := by
  induction ts with
  | nil => simp [countZero]
  | cons t rest ih =>
    by_cases h : t.weight = 0 <;> simp [countZero, h, ih]

theorem fixGroup_weights_nonzero (g : cePriority) :
    ∀ t ∈ (fixGroup g).targets, t.weight ≠ 0 := by
  intro t ht
  by_cases hz : countZero g.targets = 0
  · rw [fixGroup, if_pos hz] at ht
    exact (countZero_eq_zero g.targets).mp hz t ht
  · rw [fixGroup, if_neg hz] at ht
    simp only [applyVerySmall_eq_map, List.mem_map] at ht
    obtain ⟨t₀, _, hmap⟩ := ht
    by_cases h0 : t₀.weight = 0
    · rw [if_pos h0] at hmap
      rw [← hmap]
      exact Nat.pos_iff_ne_zero.mp (verySmallOf_pos g)
    · rw [if_neg h0] at hmap
      rw [← hmap]
      exact h0

theorem fixGroup_priority (g : cePriority) : (fixGroup g).priority = g.priority := by
  rw [fixGroup]
  split <;> rfl

/-- The ascending-priority invariant of the grouping loop. -/
theorem buildGroupsAux_ascending (rest : List SRVRec) :
    ∀ prio acc tw, List.Sorted leP rest → (∀ r ∈ rest, prio ≤ r.priority) →
      List.Chain' (fun a b => a.priority < b.priority)
        (buildGroupsAux prio acc tw rest) ∧
      ∀ g ∈ buildGroupsAux prio acc tw rest, prio ≤ g.priority := by
  induction rest with
  | nil =>
    intro prio acc tw _ _
    constructor
    · simp [buildGroupsAux]
    · intro g hg
      simp [buildGroupsAux] at hg
      subst hg
      exact Nat.le_refl _
  | cons srv rest ih =>
    intro prio acc tw hsorted hge
    rw [List.sorted_cons] at hsorted
    obtain ⟨hhead, hsorted'⟩ := hsorted
    by_cases hempty : srv.target = ""
    · rw [buildGroupsAux, if_pos hempty]
      exact ih prio acc tw hsorted' (fun r hr => hge r (List.mem_cons_of_mem _ hr))
    · by_cases hprio : srv.priority = prio
      · rw [buildGroupsAux, if_neg hempty, if_pos hprio]
        refine ih prio _ _ hsorted' ?_
        intro r hr
        exact hprio ▸ hhead r hr
      · rw [buildGroupsAux, if_neg hempty, if_neg hprio]
        have hlt : prio < srv.priority :=
          Nat.lt_of_le_of_ne (hge srv (List.mem_cons_self _ _)) (fun h => hprio h.symm)
        obtain ⟨hchain, hall⟩ := ih srv.priority [mkTarget srv] (mkTarget srv).weight
          hsorted' hhead
        constructor
        · refine List.chain'_cons'.mpr ⟨?_, hchain⟩
          intro y hy
          have hy' := hall y (List.mem_of_mem_head? hy)
          exact Nat.lt_of_lt_of_le hlt hy'
        · intro g hg
          rcases List.mem_cons.mp hg with h | h
          · subst h; exact Nat.le_refl _
          · exact Nat.le_of_lt (Nat.lt_of_lt_of_le hlt (hall g h))

theorem buildGroups_ascending (l : List SRVRec) (hsorted : List.Sorted leP l) :
    List.Chain' (fun a b => a.priority < b.priority) (buildGroups l) := by
  induction l with
  | nil => simp [buildGroups]
  | cons srv rest ih =>
    rw [List.sorted_cons] at hsorted
    obtain ⟨hhead, hsorted'⟩ := hsorted
    by_cases hempty : srv.target = ""
    · rw [buildGroups, if_pos hempty]
      exact ih hsorted'
    · rw [buildGroups, if_neg hempty]
      exact (buildGroupsAux_ascending rest srv.priority _ _ hsorted' hhead).1

/-- The skip condition of `populate` as a filter predicate: keep records
whose target is nonempty. -/
def keepSRV (s : SRVRec) : Bool := decide (s.target ≠ "")

theorem buildGroupsAux_filter (rest : List SRVRec) :
    ∀ prio acc tw,
      buildGroupsAux prio acc tw rest =
        buildGroupsAux prio acc tw (rest.filter keepSRV) := by
  induction rest with
  | nil => intro prio acc tw; rfl
  | cons srv rest ih =>
    intro prio acc tw
    by_cases hempty : srv.target = ""
    · have hk : ¬ keepSRV srv = true := by simp [keepSRV, hempty]
      rw [List.filter_cons_of_neg hk, buildGroupsAux, if_pos hempty]
      exact ih ..
    · have hk : keepSRV srv = true := by simp [keepSRV, hempty]
      rw [List.filter_cons_of_pos hk]
      by_cases hprio : srv.priority = prio
      · rw [buildGroupsAux, if_neg hempty, if_pos hprio,
            buildGroupsAux, if_neg hempty, if_pos hprio]
        exact ih ..
      · rw [buildGroupsAux, if_neg hempty, if_neg hprio,
            buildGroupsAux, if_neg hempty, if_neg hprio]
        rw [ih ..]

theorem buildGroups_filter (l : List SRVRec) :
    buildGroups l = buildGroups (l.filter keepSRV) := by
  induction l with
  | nil => rfl
  | cons srv rest ih =>
    by_cases hempty : srv.target = ""
    · have hk : ¬ keepSRV srv = true := by simp [keepSRV, hempty]
      rw [List.filter_cons_of_neg hk, buildGroups, if_pos hempty]
      exact ih
    · have hk : keepSRV srv = true := by simp [keepSRV, hempty]
      rw [List.filter_cons_of_pos hk, buildGroups, if_neg hempty,
          buildGroups, if_neg hempty]
      exact buildGroupsAux_filter ..

theorem orderedInsert_of_forall_le (a : SRVRec) (m : List SRVRec)
    (h : ∀ c ∈ m, leP a c) : List.orderedInsert leP a m = a :: m := by
  cases m with
  | nil => rfl
  | cons c m' =>
    rw [List.orderedInsert, if_pos (h c (List.mem_cons_self _ _))]

theorem filter_orderedInsert_pos (a : SRVRec) (l : List SRVRec)
    (ha : keepSRV a = true) (hs : List.Sorted leP l) :
    (List.orderedInsert leP a l).filter keepSRV =
      List.orderedInsert leP a (l.filter keepSRV) := by
  induction l with
  | nil => simp [List.orderedInsert, ha]
  | cons b l' ih =>
    rw [List.sorted_cons] at hs
    obtain ⟨hball, hs'⟩ := hs
    by_cases hab : leP a b
    · rw [List.orderedInsert, if_pos hab]
      simp only [List.filter_cons_of_pos ha]
      by_cases hb : keepSRV b = true
      · simp only [List.filter_cons_of_pos hb]
        rw [List.orderedInsert, if_pos hab]
      · simp only [List.filter_cons_of_neg hb]
        have hall : ∀ c ∈ l'.filter keepSRV, leP a c := by
          intro c hc
          have hc' := List.mem_of_mem_filter hc
          exact Trans.trans hab (hball c hc')
        rw [orderedInsert_of_forall_le a _ hall]
    · rw [List.orderedInsert, if_neg hab]
      by_cases hb : keepSRV b = true
      · simp only [List.filter_cons_of_pos hb]
        rw [List.orderedInsert, if_neg hab, ih hs']
      · simp only [List.filter_cons_of_neg hb]
        exact ih hs' 

theorem filter_orderedInsert_neg (a : SRVRec) (l : List SRVRec)
    (ha : ¬ keepSRV a = true) :
    (List.orderedInsert leP a l).filter keepSRV = l.filter keepSRV := by
  induction l with
  | nil => simp [List.orderedInsert, List.filter_cons_of_neg ha]
  | cons b l' ih =>
    by_cases hab : leP a b
    · rw [List.orderedInsert, if_pos hab, List.filter_cons_of_neg ha]
    · rw [List.orderedInsert, if_neg hab]
      by_cases hb : keepSRV b = true
      · simp only [List.filter_cons_of_pos hb]
        rw [ih]
      · simp only [List.filter_cons_of_neg hb]
        exact ih

theorem filter_sortSRV (l : List SRVRec) :
    (sortSRV l).filter keepSRV = sortSRV (l.filter keepSRV) := by
  induction l with
  | nil => rfl
  | cons a l' ih =>
    by_cases ha : keepSRV a = true
    · rw [sortSRV, List.insertionSort, List.filter_cons_of_pos ha, sortSRV,
          List.insertionSort]
      rw [filter_orderedInsert_pos a _ ha (List.sorted_insertionSort leP l')]
      rw [← sortSRV, ← sortSRV, ih]
    · rw [sortSRV, List.insertionSort, List.filter_cons_of_neg ha, sortSRV]
      rw [filter_orderedInsert_neg a _ ha, ← sortSRV, ← sortSRV, ih]

/-- **C5.** For every SRV record list, the populated view has only targets
with nonzero effective weight, its priority groups appear in strictly
ascending (hence pairwise distinct) priority order, and records with an
empty target name contribute nothing: the view equals the view of the
input with empty-target records removed. -/
theorem populate_invariants (srvs : List SRVRec) :
    (∀ g ∈ populateView srvs, ∀ t ∈ g.targets, t.weight ≠ 0) ∧
    List.Chain' (fun a b => a.priority < b.priority) (populateView srvs) ∧
    populateView srvs = populateView (srvs.filter keepSRV) := by
  refine ⟨?_, ?_, ?_⟩
  · intro g hg
    simp only [populateView, List.mem_map] at hg
    obtain ⟨g₀, _, hfix⟩ := hg
    exact hfix ▸ fixGroup_weights_nonzero g₀
  · have hchain := buildGroups_ascending (sortSRV srvs)
      (List.sorted_insertionSort leP srvs)
    rw [populateView, List.chain'_map]
    exact hchain.imp (fun a b h => by
      rw [fixGroup_priority, fixGroup_priority]; exact h)
  · rw [populateView, populateView, buildGroups_filter (sortSRV srvs),
        filter_sortSRV]

/-- **C6 (counterexample).** The claim "expiration is `now + foundSRVTTL`
if any targets survived population ... and `now + notFoundSRVTTL`
otherwise" fails: a resolver result consisting of a single record with an
empty target yields a view with no surviving targets, yet its expiration
is `now + FoundSRVTTL` (here `300`), not `now + NotFoundSRVTTL` (`1200`). -/
theorem lookupSRVMiss_claim_cex :
    (lookupSRVMiss ⟨300, 60, 300, 1200, "OK"⟩ 0 [⟨0, 0, 80, ""⟩]).priorities = [] ∧
    (lookupSRVMiss ⟨300, 60, 300, 1200, "OK"⟩ 0 [⟨0, 0, 80, ""⟩]).expires = 0 + 300 ∧
    (lookupSRVMiss ⟨300, 60, 300, 1200, "OK"⟩ 0 [⟨0, 0, 80, ""⟩]).expires ≠ 0 + 1200 := by
  refine ⟨by decide, by decide, by decide⟩

/-- **C6 (amended).** On a cache miss the installed view's expiration is
`now + FoundSRVTTL` iff the resolver returned a non-empty SRV record list
(even when no target survives population), and `now + NotFoundSRVTTL`
otherwise (resolver error and empty result look alike: both give an empty
list). -/
theorem lookupSRVMiss_expires (cfg : Config) (now : Nat)
    (srvList : List SRVRec) :
    (lookupSRVMiss cfg now srvList).expires =
      if srvList.isEmpty then now + cfg.NotFoundSRVTTL
      else now + cfg.FoundSRVTTL := by
  cases srvList with
  | nil => rfl
  | cons a l => simp [lookupSRVMiss]

/-- The synthesized `*net.SRV` returned by `bestTarget` (string target plus
the three `uint16` fields). -/
structure SRVOut where
  target : String
  port : Nat
  priority : Nat
  weight : Nat
deriving DecidableEq, Repr

/-- The field assignments `srv.Target = cet.target; srv.Port = uint16(cet.port);
srv.Priority = uint16(cep.priority); srv.Weight = uint16(cet.weight) / smallChanceMultiplier`
performed by `bestTarget` (note: the `uint16` truncation happens *before*
the division by `smallChanceMultiplier`). -/
def mkOut (prio : Nat) (cet : ceTarget) : SRVOut :=
  { target := cet.target, port := cet.port % 65536, priority := prio % 65536,
    weight := cet.weight % 65536 / smallChanceMultiplier }

/-- Whether `bestTarget` treats a target as usable:
`ceh == nil || ceh.isGood(now)`. -/
def goodOrAbsent (hc : HealthCache) (now : Nat) (cet : ceTarget) : Bool :=
  match hcLookup hc cet.healthStoreKey with
  | none => true
  | some ceh => ceh.isGood now

/-- The inner target loop of `bestTarget`'s first (weighted) pass over one
priority group: `wix` is the random draw, `lower` the running lower bound
of the weight interval, `second` the remembered second choice.  Returns the
in-range healthy target, else the group's second choice, else `none`. -/
def scanTargets (hc : HealthCache) (now wix prio : Nat) :
    List ceTarget → Nat → Option SRVOut → Option SRVOut
  | [], _, second => second
  | cet :: rest, lower, second =>
    let upper := lower + cet.weight
    if goodOrAbsent hc now cet then
      if lower ≤ wix ∧ wix < upper then some (mkOut prio cet)
      else
        scanTargets hc now wix prio rest upper
          (if second = none then some (mkOut prio cet) else second)
    else scanTargets hc now wix prio rest upper second

/-- The outer priority loop of `bestTarget`'s first pass.  `rand idx tw`
models the `t.randIntn(cep.totalWeight)` draw for the group at position
`idx`. -/
def happyScan (rand : Nat → Nat → Nat) (hc : HealthCache) (now : Nat) :
    Nat → List cePriority → Option SRVOut
  | _, [] => none
  | idx, cep :: rest =>
    match scanTargets hc now (rand idx cep.totalWeight) cep.priority
        cep.targets 0 none with
    | some out => some out
    | none => happyScan rand hc now (idx + 1) rest

/-- `nextAttempt` of the least-worst pass: `now` when the health record is
absent, else the record's `nextDialAttempt`. -/
def nextAttemptOf (hc : HealthCache) (now : Nat) (cet : ceTarget) : Nat :=
  match hcLookup hc cet.healthStoreKey with
  | none => now
  | some ceh => ceh.nextDialAttempt

/-- The least-worst pass of `bestTarget`: fold over all targets keeping the
state `(smallestLeastWorst, srv)`; the update fires when
`smallestLeastWorst.IsZero() || nextAttempt.Before(smallestLeastWorst)`. -/
def leastWorstGo (hc : HealthCache) (now : Nat) :
    List (Nat × ceTarget) → Nat → SRVOut → SRVOut
  | [], _, out => out
  | (prio, cet) :: rest, smallest, out =>
    let na := nextAttemptOf hc now cet
    if smallest = 0 ∨ na < smallest then
      leastWorstGo hc now rest na (mkOut prio cet)
    else leastWorstGo hc now rest smallest out

/-- `cslb.bestTarget`: `nil` when the view has no priority groups;
otherwise the weighted healthy pass, falling back to the least-worst pass
(which starts from the zero-valued `srv = &net.SRV{}`). -/
def bestTarget (rand : Nat → Nat → Nat) (hc : HealthCache) (now : Nat)
    (cesrv : ceSRV) : Option SRVOut :=
  if cesrv.priorities.length = 0 then none
  else
    match happyScan rand hc now 0 cesrv.priorities with
    | some out => some out
    | none =>
      some (leastWorstGo hc now (allTargets cesrv.priorities) 0
        { target := "", port := 0, priority := 0, weight := 0 })

/-- **C9.** The selector returns `none` iff the view has zero priority
groups; for every view with at least one group it returns exactly one
endpoint (`some`). -/
theorem bestTarget_none_iff (rand : Nat → Nat → Nat) (hc : HealthCache)
    (now : Nat) (cesrv : ceSRV) :
    bestTarget rand hc now cesrv = none ↔ cesrv.priorities = [] := by
  rw [bestTarget]
  by_cases h : cesrv.priorities.length = 0
  · simp [h, List.length_eq_zero.mp h]
  · rw [if_neg h]
    constructor
    · intro hcontra
      cases hscan : happyScan rand hc now 0 cesrv.priorities with
      | none => rw [hscan] at hcontra; exact absurd hcontra (by simp)
      | some out => rw [hscan] at hcontra; exact absurd hcontra (by simp)
    · intro hnil
      exact absurd (by rw [hnil]; rfl) h

-- Where the selector's result comes from.

theorem scanTargets_mem (hc : HealthCache) (now wix prio : Nat)
    (ts : List ceTarget) :
    ∀ lower second out,
      scanTargets hc now wix prio ts lower second = some out →
      second = some out ∨ ∃ cet ∈ ts, out = mkOut prio cet := by
  induction ts with
  | nil =>
    intro lower second out h
    exact Or.inl h
  | cons cet rest ih =>
    intro lower second out h
    rw [scanTargets] at h
    by_cases hgood : goodOrAbsent hc now cet = true
    · rw [if_pos hgood] at h
      by_cases hrange : lower ≤ wix ∧ wix < lower + cet.weight
      · rw [if_pos hrange] at h
        right
        exact ⟨cet, List.mem_cons_self _ _, (Option.some.injEq ..).mp h.symm⟩
      · rw [if_neg hrange] at h
        rcases ih _ _ _ h with h2 | ⟨cet', hmem, hout⟩
        · by_cases hsec : second = none
          · rw [if_pos hsec] at h2
            right
            exact ⟨cet, List.mem_cons_self _ _, (Option.some.injEq ..).mp h2.symm⟩
          · rw [if_neg hsec] at h2
            exact Or.inl h2
        · exact Or.inr ⟨cet', List.mem_cons_of_mem _ hmem, hout⟩
    · rw [if_neg hgood] at h
      rcases ih _ _ _ h with h2 | ⟨cet', hmem, hout⟩
      · exact Or.inl h2
      · exact Or.inr ⟨cet', List.mem_cons_of_mem _ hmem, hout⟩

theorem happyScan_mem (rand : Nat → Nat → Nat) (hc : HealthCache) (now : Nat)
    (ps : List cePriority) :
    ∀ idx out, happyScan rand hc now idx ps = some out →
      ∃ g ∈ ps, ∃ cet ∈ g.targets, out = mkOut g.priority cet := by
  induction ps with
  | nil => intro idx out h; exact absurd h (by simp [happyScan])
  | cons cep rest ih =>
    intro idx out h
    rw [happyScan] at h
    cases hscan : scanTargets hc now (rand idx cep.totalWeight) cep.priority
        cep.targets 0 none with
    | some out' =>
      rw [hscan] at h
      obtain rfl : out' = out := (Option.some.injEq ..).mp h
      rcases scanTargets_mem hc now _ _ _ _ _ _ hscan with h2 | ⟨cet, hmem, hout⟩
      · exact absurd h2.symm (by simp)
      · exact ⟨cep, List.mem_cons_self _ _, cet, hmem, hout⟩
    | none =>
      rw [hscan] at h
      obtain ⟨g, hg, cet, hmem, hout⟩ := ih (idx + 1) out h
      exact ⟨g, List.mem_cons_of_mem _ hg, cet, hmem, hout⟩

theorem leastWorstGo_mem (hc : HealthCache) (now : Nat)
    (l : List (Nat × ceTarget)) :
    ∀ smallest out0,
      leastWorstGo hc now l smallest out0 = out0 ∨
      ∃ pc ∈ l, leastWorstGo hc now l smallest out0 = mkOut pc.1 pc.2 := by
  induction l with
  | nil => intro smallest out0; exact Or.inl rfl
  | cons pc rest ih =>
    intro smallest out0
    obtain ⟨prio, cet⟩ := pc
    rw [leastWorstGo]
    by_cases hcond : smallest = 0 ∨ nextAttemptOf hc now cet < smallest
    · rw [if_pos hcond]
      rcases ih (nextAttemptOf hc now cet) (mkOut prio cet) with h | ⟨pc', hmem, hout⟩
      · exact Or.inr ⟨(prio, cet), List.mem_cons_self _ _, h⟩
      · exact Or.inr ⟨pc', List.mem_cons_of_mem _ hmem, hout⟩
    · rw [if_neg hcond]
      rcases ih smallest out0 with h | ⟨pc', hmem, hout⟩
      · exact Or.inl h
      · exact Or.inr ⟨pc', List.mem_cons_of_mem _ hmem, hout⟩

theorem leastWorstGo_mem_of_zero (hc : HealthCache) (now : Nat)
    (l : List (Nat × ceTarget)) (hl : l ≠ []) (out0 : SRVOut) :
    ∃ pc ∈ l, leastWorstGo hc now l 0 out0 = mkOut pc.1 pc.2 := by
  cases l with
  | nil => exact absurd rfl hl
  | cons pc rest =>
    obtain ⟨prio, cet⟩ := pc
    rw [leastWorstGo, if_pos (Or.inl rfl)]
    rcases leastWorstGo_mem hc now rest (nextAttemptOf hc now cet) (mkOut prio cet)
      with h | ⟨pc', hmem, hout⟩
    · exact ⟨(prio, cet), List.mem_cons_self _ _, h⟩
    · exact ⟨pc', List.mem_cons_of_mem _ hmem, hout⟩

theorem mem_allTargets (ps : List cePriority) (p : Nat) (cet : ceTarget) :
    (p, cet) ∈ allTargets ps ↔ ∃ g ∈ ps, g.priority = p ∧ cet ∈ g.targets := by
  induction ps with
  | nil => simp [allTargets]
  | cons g rest ih =>
    simp only [allTargets, List.mem_append, List.mem_map, ih, List.mem_cons]
    constructor
    · rintro (⟨t, ht, heq⟩ | ⟨g', hg', hp, hmem⟩)
      · obtain ⟨h1, h2⟩ := Prod.mk.injEq .. ▸ heq
        exact ⟨g, Or.inl rfl, h1.symm ▸ h2 ▸ ⟨rfl, ht⟩⟩
      · exact ⟨g', Or.inr hg', hp, hmem⟩
    · rintro ⟨g', hg' | hg', hp, hmem⟩
      · subst hg'
        exact Or.inl ⟨cet, hmem, by rw [hp]⟩
      · exact Or.inr ⟨g', hg', hp, hmem⟩

/-- Every endpoint returned by `bestTarget` on a view with at least one
target is one of the view's stored targets, rendered through `mkOut`. -/
theorem bestTarget_mem (rand : Nat → Nat → Nat) (hc : HealthCache) (now : Nat)
    (cesrv : ceSRV) (out : SRVOut)
    (hne : allTargets cesrv.priorities ≠ [])
    (h : bestTarget rand hc now cesrv = some out) :
    ∃ g ∈ cesrv.priorities, ∃ cet ∈ g.targets, out = mkOut g.priority cet := by
  rw [bestTarget] at h
  by_cases hlen : cesrv.priorities.length = 0
  · rw [if_pos hlen] at h
    exact absurd h (by simp)
  · rw [if_neg hlen] at h
    cases hscan : happyScan rand hc now 0 cesrv.priorities with
    | some out' =>
      rw [hscan] at h
      have heq : out' = out := (Option.some.injEq ..).mp h
      rw [heq] at hscan
      exact happyScan_mem rand hc now _ 0 out hscan
    | none =>
      rw [hscan] at h
      obtain ⟨⟨p, cet⟩, hmem, hout⟩ :=
        leastWorstGo_mem_of_zero hc now (allTargets cesrv.priorities) hne
          { target := "", port := 0, priority := 0, weight := 0 }
      obtain ⟨g, hg, hp, hcet⟩ := (mem_allTargets ..).mp hmem
      refine ⟨g, hg, cet, hcet, ?_⟩
      rw [← (Option.some.injEq ..).mp h, hout, hp]

/-- **C1 (bug evaluation).** With two targets `a:80` and `c:80`, both with
health records marked `unHealthy` (so neither is eligible), where `a` has
`nextDialAttempt = 0` (e.g. marked unhealthy by a prober after a good dial
cleared it) and `c` has `nextDialAttempt = 100`, the least-worst pass at
`now = 50` returns `c` — not eligible and not the target with the smallest
`nextDialAttempt` (`a`, with `0 < 100`): the `smallestLeastWorst.IsZero()`
test re-fires after `a` sets the running minimum to the zero time, letting
`c` overwrite it, contradicting the claim and the code's own comments
("the least-worst target has the soonest nextDialAttempt"). -/
theorem bestTarget_leastWorst_bug_eval :
    bestTarget (fun _ _ => 0)
        ([("a:80", ⟨0, 0, 0, 0, 0, "", 0, "", "", true⟩),
          ("c:80", ⟨0, 0, 0, 100, 0, "", 0, "", "", true⟩)] : HealthCache)
        50 ⟨0, [⟨0, 2000, [⟨1000, 80, "a"⟩, ⟨1000, 80, "c"⟩]⟩], 2⟩ =
      some ⟨"c", 80, 0, 1⟩ ∧
    (∀ pc ∈ allTargets [⟨0, 2000, [⟨1000, 80, "a"⟩, ⟨1000, 80, "c"⟩]⟩],
      goodOrAbsent
        ([("a:80", ⟨0, 0, 0, 0, 0, "", 0, "", "", true⟩),
          ("c:80", ⟨0, 0, 0, 100, 0, "", 0, "", "", true⟩)] : HealthCache)
        50 pc.2 = false) ∧
    nextAttemptOf
        ([("a:80", ⟨0, 0, 0, 0, 0, "", 0, "", "", true⟩),
          ("c:80", ⟨0, 0, 0, 100, 0, "", 0, "", "", true⟩)] : HealthCache)
        50 ⟨1000, 80, "a"⟩ = 0 ∧
    nextAttemptOf
        ([("a:80", ⟨0, 0, 0, 0, 0, "", 0, "", "", true⟩),
          ("c:80", ⟨0, 0, 0, 100, 0, "", 0, "", "", true⟩)] : HealthCache)
        50 ⟨1000, 80, "c"⟩ = 100 := by
  refine ⟨by decide, by decide, by decide, by decide⟩

/-- **C7 (counterexample).** For an SRV record of original weight `66`
(stored effective weight `66000`), the selector reports weight
`uint16(66000) / 1000 = 464 / 1000 = 0`: the `uint16` truncation happens
before the division, so the reported weight is neither the stored
effective weight divided by `1000` (`66`) nor the original weight. -/
theorem bestTarget_weight_claim_cex :
    populateView [⟨0, 66, 80, "x"⟩] = [⟨0, 66000, [⟨66000, 80, "x"⟩]⟩] ∧
    bestTarget (fun _ _ => 0) ([] : HealthCache) 0
        ⟨300, populateView [⟨0, 66, 80, "x"⟩], 1⟩ = some ⟨"x", 80, 0, 0⟩ ∧
    (0 : Nat) ≠ 66000 / smallChanceMultiplier ∧ (0 : Nat) ≠ 66 := by
  refine ⟨by decide, by decide, by decide, by decide⟩

/-- **C7 (amended).** Every endpoint the selector returns on a view with at
least one target corresponds to a stored target; the reported weight is
the stored effective weight truncated to `uint16` and then divided by
`1000` (for an original nonzero SRV weight `w` this equals `w` exactly
when `w * 1000 < 2^16`, i.e. `w ≤ 65`); the reported port is the stored
port truncated to `uint16`. -/
theorem bestTarget_weight_report (rand : Nat → Nat → Nat) (hc : HealthCache)
    (now : Nat) (cesrv : ceSRV) (out : SRVOut)
    (hne : allTargets cesrv.priorities ≠ [])
    (h : bestTarget rand hc now cesrv = some out) :
    ∃ g ∈ cesrv.priorities, ∃ cet ∈ g.targets,
      out.target = cet.target ∧
      out.port = cet.port % 65536 ∧
      out.weight = cet.weight % 65536 / smallChanceMultiplier ∧
      (∀ w, cet.weight = w * smallChanceMultiplier →
        w * smallChanceMultiplier < 65536 → out.weight = w) := by
  obtain ⟨g, hg, cet, hcet, hout⟩ := bestTarget_mem rand hc now cesrv out hne h
  refine ⟨g, hg, cet, hcet, by rw [hout]; rfl, by rw [hout]; rfl,
    by rw [hout]; rfl, ?_⟩
  intro w hw hlt
  rw [hout]
  show cet.weight % 65536 / smallChanceMultiplier = w
  rw [hw, Nat.mod_eq_of_lt hlt, Nat.mul_div_cancel]
  decide

/-- Witness for `bestTarget_weight_report`: original weight `10`, reported
weight `10`. -/
theorem bestTarget_weight_report_witness :
    (allTargets (⟨300, populateView [⟨0, 10, 80, "x"⟩], 1⟩ : ceSRV).priorities ≠ [] ∧
     bestTarget (fun _ _ => 0) ([] : HealthCache) 0
        ⟨300, populateView [⟨0, 10, 80, "x"⟩], 1⟩ = some ⟨"x", 80, 0, 10⟩) ∧
    (∃ g ∈ (⟨300, populateView [⟨0, 10, 80, "x"⟩], 1⟩ : ceSRV).priorities,
      ∃ cet ∈ g.targets,
        (⟨"x", 80, 0, 10⟩ : SRVOut).target = cet.target ∧
        (⟨"x", 80, 0, 10⟩ : SRVOut).port = cet.port % 65536 ∧
        (⟨"x", 80, 0, 10⟩ : SRVOut).weight =
          cet.weight % 65536 / smallChanceMultiplier ∧
        (∀ w, cet.weight = w * smallChanceMultiplier →
          w * smallChanceMultiplier < 65536 →
          (⟨"x", 80, 0, 10⟩ : SRVOut).weight = w)) :=
  ⟨⟨by decide, by decide⟩,
    bestTarget_weight_report (fun _ _ => 0) ([] : HealthCache) 0
      ⟨300, populateView [⟨0, 10, 80, "x"⟩], 1⟩ ⟨"x", 80, 0, 10⟩
      (by decide) (by decide)⟩

-- The attempt loop of the orchestrator (C2).

/-- What `dialIterate` sends back on its result channel: a connection to
`addr`, or the "All unique targets failed" error carrying the attempt
count (`len(dupes)`) and the last dial error. -/
inductive DialOutcome where
  | conn (addr : String)
  | allFailed (tried : Nat) (lastErr : Option String)
deriving DecidableEq, Repr

/-- The environment of one `dialIterate` run: the configuration, the
random draws (`rand i` is the draw function of the `bestTarget` call at
iteration `i`), the clock readings, and the underlying dialer's outcome at
each iteration (`none` = good connection, `some e` = error). -/
structure DialEnv where
  cfg : Config
  rand : Nat → Nat → Nat → Nat
  nows : Nat → Nat
  dialErr : Nat → Option String

/-- `cslb.dialIterate`, unrolled with fuel (the Go loop is unbounded; the
theorems show the fuel is never exhausted).  Returns the outcome together
with the number of calls made to the underlying dialer; `none` stands for
running out of fuel, or for the never-taken `bestTarget = nil` branch
(`dialIterate` is only reached when the view has targets). -/
def dialIterateAux (env : DialEnv) (cesrv : ceSRV) :
    Nat → Nat → List String → Option String → HealthCache →
    Option (DialOutcome × Nat)
  | 0, _, _, _, _ => none
  | fuel + 1, i, dupes, lastError, hc =>
    match bestTarget (env.rand i) hc (env.nows i) cesrv with
    | none => none
    | some srv =>
      let newAddress := makeHealthStoreKey srv.target srv.port
      if newAddress ∈ dupes then
        some (.allFailed dupes.length lastError, 0)
      else
        let hc' := setDialResult env.cfg (env.nows i) srv.target srv.port
            (env.dialErr i) hc
        match env.dialErr i with
        | none => some (.conn newAddress, 1)
        | some e =>
          match dialIterateAux env cesrv fuel (i + 1) (newAddress :: dupes)
              (some e) hc' with
          | none => none
          | some (outcome, d) => some (outcome, d + 1)

theorem allTargets_ne_nil_of_keys (ps : List cePriority)
    (hn : 1 ≤ (uniqueTargetKeys ps).length) : allTargets ps ≠ [] := by
  intro h
  rw [uniqueTargetKeys, h] at hn
  simp at hn

/-- The address `bestTarget`'s result dials is one of the view's unique
target keys (ports are `uint16` in Go, whence the `< 65536` hypothesis). -/
theorem bestTarget_key_mem (rand : Nat → Nat → Nat) (hc : HealthCache)
    (now : Nat) (cesrv : ceSRV) (out : SRVOut)
    (hne : allTargets cesrv.priorities ≠ [])
    (hports : ∀ pc ∈ allTargets cesrv.priorities, pc.2.port < 65536)
    (h : bestTarget rand hc now cesrv = some out) :
    makeHealthStoreKey out.target out.port ∈ uniqueTargetKeys cesrv.priorities := by
  obtain ⟨g, hg, cet, hcet, hout⟩ := bestTarget_mem rand hc now cesrv out hne h
  have hmem : (g.priority, cet) ∈ allTargets cesrv.priorities :=
    (mem_allTargets ..).mpr ⟨g, hg, rfl, hcet⟩
  have hport : cet.port < 65536 := hports (g.priority, cet) hmem
  have hkey : makeHealthStoreKey out.target out.port = cet.healthStoreKey := by
    rw [hout]
    show makeHealthStoreKey cet.target (cet.port % 65536) = _
    rw [Nat.mod_eq_of_lt hport]
    rfl
  rw [hkey, uniqueTargetKeys, List.mem_dedup]
  exact List.mem_map.mpr ⟨(g.priority, cet), hmem, rfl⟩

/-- The inductive bound on the attempt loop: with enough fuel it
terminates, dials at most `n - |dupes|` more times, and an exhaustion
outcome reports exactly the total number of dialed addresses. -/
theorem dialIterateAux_bounded (env : DialEnv) (cesrv : ceSRV)
    (hne : allTargets cesrv.priorities ≠ [])
    (hports : ∀ pc ∈ allTargets cesrv.priorities, pc.2.port < 65536) :
    ∀ fuel dupes i lastError hc,
      dupes.Nodup →
      (∀ a ∈ dupes, a ∈ uniqueTargetKeys cesrv.priorities) →
      (uniqueTargetKeys cesrv.priorities).length - dupes.length < fuel →
      ∃ o d, dialIterateAux env cesrv fuel i dupes lastError hc = some (o, d) ∧
        d ≤ (uniqueTargetKeys cesrv.priorities).length - dupes.length ∧
        (∀ tried le, o = .allFailed tried le → tried = dupes.length + d) := by
  intro fuel
  induction fuel with
  | zero =>
    intro dupes i lastError hc _ _ hfuel
    omega
  | succ fuel ih =>
    intro dupes i lastError hc hnodup hsub hfuel
    rw [dialIterateAux]
    have hprio : cesrv.priorities ≠ [] := by
      intro h
      exact hne (by rw [h]; rfl)
    cases hbt : bestTarget (env.rand i) hc (env.nows i) cesrv with
    | none => exact absurd ((bestTarget_none_iff ..).mp hbt) hprio
    | some srv =>
      dsimp only
      have hkey := bestTarget_key_mem (env.rand i) hc (env.nows i) cesrv srv
        hne hports hbt
      by_cases hdupe : makeHealthStoreKey srv.target srv.port ∈ dupes
      · rw [if_pos hdupe]
        refine ⟨.allFailed dupes.length lastError, 0, rfl, Nat.zero_le _, ?_⟩
        intro tried le htried
        cases htried
        rfl
      · rw [if_neg hdupe]
        have hlen : dupes.length <
            (uniqueTargetKeys cesrv.priorities).length := by
          have hnodup' : (makeHealthStoreKey srv.target srv.port :: dupes).Nodup :=
            List.nodup_cons.mpr ⟨hdupe, hnodup⟩
          have hsub' : ∀ a ∈ makeHealthStoreKey srv.target srv.port :: dupes,
              a ∈ uniqueTargetKeys cesrv.priorities := by
            intro a ha
            rcases List.mem_cons.mp ha with h | h
            · rw [h]; exact hkey
            · exact hsub a h
          have h1 := List.toFinset_card_of_nodup hnodup'
          have h2 : (makeHealthStoreKey srv.target srv.port :: dupes).toFinset ⊆
              (uniqueTargetKeys cesrv.priorities).toFinset := by
            intro a ha
            rw [List.mem_toFinset] at ha ⊢
            exact hsub' a ha
          have h3 := Finset.card_le_card h2
          have h4 := (uniqueTargetKeys cesrv.priorities).toFinset_card_le
          simp only [List.length_cons] at h1
          omega
        cases herr : env.dialErr i with
        | none =>
          refine ⟨.conn (makeHealthStoreKey srv.target srv.port), 1, rfl, ?_, ?_⟩
          · omega
          · intro tried le htried
            cases htried
        | some e =>
          obtain ⟨o, d, hrec, hd, htried⟩ := ih
            (makeHealthStoreKey srv.target srv.port :: dupes) (i + 1) (some e)
            (setDialResult env.cfg (env.nows i) srv.target srv.port
              (env.dialErr i) hc)
            (List.nodup_cons.mpr ⟨hdupe, hnodup⟩)
            (by
              intro a ha
              rcases List.mem_cons.mp ha with h | h
              · rw [h]; exact hkey
              · exact hsub a h)
            (by simp only [List.length_cons]; omega)
          rw [herr] at hrec
          dsimp only
          rw [hrec]
          refine ⟨o, d + 1, rfl, ?_, ?_⟩
          · simp only [List.length_cons] at hd
            omega
          · intro tried le ho
            have := htried tried le ho
            simp only [List.length_cons] at this
            omega

/-- **C2.** For every view with `n ≥ 1` distinct `host:port` endpoints
(`uniqueTargetKeys`, all ports being `uint16` values), the attempt loop
terminates for every environment and initial health-cache state, calling
the underlying dialer at most `n` times; a run ending in the exhaustion
error has dialed exactly the reported number of distinct addresses. -/
theorem dialIterate_bounded (env : DialEnv) (cesrv : ceSRV)
    (hn : 1 ≤ (uniqueTargetKeys cesrv.priorities).length)
    (hports : ∀ pc ∈ allTargets cesrv.priorities, pc.2.port < 65536)
    (hc : HealthCache) :
    ∃ o d,
      dialIterateAux env cesrv
          ((uniqueTargetKeys cesrv.priorities).length + 1) 0 [] none hc =
        some (o, d) ∧
      d ≤ (uniqueTargetKeys cesrv.priorities).length ∧
      (∀ tried le, o = .allFailed tried le → tried = d) := by
  have hne := allTargets_ne_nil_of_keys cesrv.priorities hn
  obtain ⟨o, d, hrun, hd, htried⟩ := dialIterateAux_bounded env cesrv hne hports
    ((uniqueTargetKeys cesrv.priorities).length + 1) [] 0 none hc
    List.nodup_nil (by intro a ha; simp at ha) (by simp)
  refine ⟨o, d, hrun, by simpa using hd, ?_⟩
  intro tried le ho
  simpa using htried tried le ho

/-- Witness for `dialIterate_bounded`: one endpoint, always-failing dialer. -/
theorem dialIterate_bounded_witness :
    (1 ≤ (uniqueTargetKeys
        (⟨300, populateView [⟨0, 10, 80, "x"⟩], 1⟩ : ceSRV).priorities).length ∧
     (∀ pc ∈ allTargets
        (⟨300, populateView [⟨0, 10, 80, "x"⟩], 1⟩ : ceSRV).priorities,
        pc.2.port < 65536)) ∧
    (∃ o d,
      dialIterateAux
          ⟨⟨300, 60, 300, 1200, "OK"⟩, fun _ _ _ => 0, fun _ => 0,
            fun _ => some "e"⟩
          ⟨300, populateView [⟨0, 10, 80, "x"⟩], 1⟩
          ((uniqueTargetKeys
            (⟨300, populateView [⟨0, 10, 80, "x"⟩], 1⟩ : ceSRV).priorities).length + 1)
          0 [] none [] =
        some (o, d) ∧
      d ≤ (uniqueTargetKeys
        (⟨300, populateView [⟨0, 10, 80, "x"⟩], 1⟩ : ceSRV).priorities).length ∧
      (∀ tried le, o = .allFailed tried le → tried = d)) :=
  ⟨⟨by decide, by decide⟩,
    dialIterate_bounded
      ⟨⟨300, 60, 300, 1200, "OK"⟩, fun _ _ _ => 0, fun _ => 0, fun _ => some "e"⟩
      ⟨300, populateView [⟨0, 10, 80, "x"⟩], 1⟩ (by decide) (by decide) []⟩

-- The health-check step of the prober loop (C8).

/-- Whether `pat` occurs as a contiguous prefix of `body`
(helper for the `bytes.Contains` model). -/
def isSubListAt : List Char → List Char → Bool
  | [], _ => true
  | _ :: _, [] => false
  | p :: ps, b :: bs => p == b && isSubListAt ps bs

/-- `bytes.Contains(body, pat)`: `pat` occurs contiguously in `body`. -/
def containsSeq (pat : List Char) : List Char → Bool
  | [] => pat.isEmpty
  | b :: rest => isSubListAt pat (b :: rest) || containsSeq pat rest

/-- What one GET of the health-check URL produced, as seen by the loop
body of `fetchAndRunHealthCheck`: a transport-level error (`http.Get`
returned an error), a received response whose body failed to read
(`ioutil.ReadAll` errored), or a received response with status code,
status line (`resp.Status`) and body. -/
inductive ProbeStep where
  | transportError (errMsg : String)
  | bodyReadError (statusCode : Nat) (statusLine : String)
  | response (statusCode : Nat) (statusLine : String) (body : String)
deriving DecidableEq, Repr

/-- Whether the prober loop continues after the iteration or the worker
returns. -/
inductive ProbeVerdict where
  | exitWorker
  | continueLoop
deriving DecidableEq, Repr

/-- One iteration of the health-check loop of `fetchAndRunHealthCheck`
(after the sleep and the expiry check): how the GET outcome updates the
health record and whether the worker keeps running. -/
def healthCheckStep (okPhrase : String) (now : Nat) (ceh : ceHealth) :
    ProbeStep → ceHealth × ProbeVerdict
  | .transportError msg =>
    ({ ceh with unHealthy := true, lastHealthCheck := now,
                lastHealthCheckStatus := msg }, .exitWorker)
  | .bodyReadError _ _ => (ceh, .continueLoop)
  | .response code statusLine body =>
    let ok := code == 200 && containsSeq okPhrase.data body.data
    ({ ceh with unHealthy := !ok, lastHealthCheck := now,
                lastHealthCheckStatus := statusLine }, .continueLoop)

/-- **C8 (counterexample).** A received response whose body read fails
(here with status `404`) leaves the record untouched and continues the
loop: the unhealthy flag is *not* set even though the status is not `200`,
and no status or timestamp is recorded, contradicting the claim's "if a
response is received ... exactly when the status is not 200 ...". -/
theorem healthCheckStep_claim_cex :
    healthCheckStep "OK" 7 emptyHealth (.bodyReadError 404 "404 Not Found") =
      (emptyHealth, .continueLoop) ∧
    emptyHealth.unHealthy = false ∧
    emptyHealth.lastHealthCheck = 0 ∧
    (404 : Nat) ≠ 200 := by
  refine ⟨rfl, rfl, rfl, by decide⟩

/-- **C8 (amended).** For every iteration of the prober loop: a
transport-level error marks the record unhealthy, records the error string
and timestamp, and exits the worker; a received response whose body is
read successfully sets `unHealthy` exactly when the status is not 200 or
the body does not contain the configured OK phrase, records status line
and timestamp, and continues the loop; a received response whose body
read fails leaves the record unchanged and continues the loop. -/
theorem healthCheckStep_spec (okPhrase : String) (now : Nat)
    (ceh : ceHealth) :
    (∀ msg,
      healthCheckStep okPhrase now ceh (.transportError msg) =
        ({ ceh with unHealthy := true, lastHealthCheck := now,
                    lastHealthCheckStatus := msg }, .exitWorker)) ∧
    (∀ code statusLine body,
      ((healthCheckStep okPhrase now ceh
          (.response code statusLine body)).1.unHealthy = true ↔
        (code ≠ 200 ∨ containsSeq okPhrase.data body.data = false)) ∧
      (healthCheckStep okPhrase now ceh
          (.response code statusLine body)).1.lastHealthCheck = now ∧
      (healthCheckStep okPhrase now ceh
          (.response code statusLine body)).1.lastHealthCheckStatus = statusLine ∧
      (healthCheckStep okPhrase now ceh
          (.response code statusLine body)).2 = .continueLoop) ∧
    (∀ code statusLine,
      healthCheckStep okPhrase now ceh (.bodyReadError code statusLine) =
        (ceh, .continueLoop)) := by
  refine ⟨fun msg => rfl, ?_, fun code statusLine => rfl⟩
  intro code statusLine body
  refine ⟨?_, rfl, rfl, rfl⟩
  show (!(code == 200 && containsSeq okPhrase.data body.data)) = true ↔ _
  rcases h : containsSeq okPhrase.data body.data with _ | _ <;>
    rcases hc : code == 200 with _ | _ <;>
      simp_all [Nat.beq_eq]

-- extractHostPort (C10).

/-- The byte index of the last `':'` (`strings.LastIndex(address, ":")`),
or `none` when there is no colon (Go returns `-1`).  Indexing is by
character; a `':'` in UTF-8 always sits on a rune boundary, so positions
and the induced splits agree with Go's byte indexing. -/
def lastColonIndex : List Char → Option Nat
  | [] => none
  | c :: rest =>
    match lastColonIndex rest with
    | some i => some (i + 1)
    | none => if c = ':' then some 0 else none


/-- `strings.LastIndex(address, ":")` as Go computes it: the index of the
last colon, or `-1` when there is none. -/
def lastIndexColon (l : List Char) : Int :=
  match lastColonIndex l with
  | none => -1
  | some i => (i : Int)

/-- `extractHostPort` on the character list of the address.  The `none`
result models the panic of the unguarded `address[0]` read on an empty
address. -/
def extractHostPortCore (parseIP : String → Bool) :
    List Char → Option (String × String)
  | [] => none
  | c :: rest =>
    if c = '[' then some ("", "")
    else
      let lastColon := lastIndexColon (c :: rest)
      if lastColon < 1 then some ("", "")
      else if lastColon + 1 = ((c :: rest).length : Int) then some ("", "")
      else
        let host : String := ⟨(c :: rest).take lastColon.toNat⟩
        let port : String := ⟨(c :: rest).drop (lastColon.toNat + 1)⟩
        if parseIP host then some ("", "") else some (host, port)

/-- `extractHostPort`, with `net.ParseIP` abstracted as the oracle
`parseIP` (`true` = the string parses as an IP literal). -/
def extractHostPort (parseIP : String → Bool) (address : String) :
    Option (String × String) :=
  extractHostPortCore parseIP address.data

/-- The host/port extraction prefix of `cslb.dialContext`:
`extractHostPort(strings.ToLower(address))`, with the caller-supplied
address passed through unchecked. -/
def dialContextHostPort (parseIP : String → Bool) (address : String) :
    Option (String × String) :=
  extractHostPort parseIP (toLowerStr address)

theorem lastColonIndex_get (l : List Char) :
    ∀ i, lastColonIndex l = some i → l.get? i = some ':' := by
  induction l with
  | nil => intro i h; exact absurd h (by simp [lastColonIndex])
  | cons c rest ih =>
    intro i h
    rw [lastColonIndex] at h
    cases hrest : lastColonIndex rest with
    | some j =>
      rw [hrest] at h
      have : j + 1 = i := (Option.some.injEq ..).mp h
      rw [← this]
      exact ih j hrest
    | none =>
      rw [hrest] at h
      by_cases hc : c = ':'
      · rw [if_pos hc] at h
        have : (0 : Nat) = i := (Option.some.injEq ..).mp h
        rw [← this, hc]
        rfl
      · rw [if_neg hc] at h
        exact absurd h (by simp)

theorem lastColonIndex_getLast (l : List Char) (h : l.getLast? = some ':') :
    lastColonIndex l = some (l.length - 1) := by
  induction l with
  | nil => simp at h
  | cons c rest ih =>
    cases rest with
    | nil =>
      simp only [List.getLast?_singleton] at h
      have hc : c = ':' := (Option.some.injEq ..).mp h
      simp [lastColonIndex, hc]
    | cons c2 rest2 =>
      have h' : (c2 :: rest2).getLast? = some ':' := by
        rwa [List.getLast?_cons_cons] at h
      rw [lastColonIndex, ih h']
      simp

/-- **C10.** For every non-empty address, `extractHostPort` terminates
with a defined `(host, port)` pair (all indexing in bounds), and returns
the empty pair whenever the address starts with `'['`, contains no colon
at index ≥ 1, ends with a colon, or its host part (the prefix before the
last colon) parses as an IP literal.  Non-emptiness is a genuine
precondition: on the empty address the unguarded `address[0]` read is
undefined (modelled as `none`), and `dialContext` feeds the caller's
address to `extractHostPort` unchecked. -/
theorem extractHostPort_spec (parseIP : String → Bool) (address : String)
    (h : address ≠ "") :
    (extractHostPort parseIP address).isSome = true ∧
    (address.data.head? = some '[' →
      extractHostPort parseIP address = some ("", "")) ∧
    ((∀ i, 1 ≤ i → address.data.get? i ≠ some ':') →
      extractHostPort parseIP address = some ("", "")) ∧
    (address.data.getLast? = some ':' →
      extractHostPort parseIP address = some ("", "")) ∧
    (∀ i, lastColonIndex address.data = some i → 1 ≤ i →
      i + 1 ≠ address.data.length →
      parseIP ⟨address.data.take i⟩ = true →
      extractHostPort parseIP address = some ("", "")) ∧
    extractHostPort parseIP "" = none ∧
    dialContextHostPort parseIP "" = none := by
  have hdata : address.data ≠ [] := by
    intro hcontra
    apply h
    cases address with
    | mk data =>
      simp only at hcontra
      rw [hcontra]
  obtain ⟨c, rest, hd⟩ : ∃ c' r, address.data = c' :: r := by
    cases hx : address.data with
    | nil => exact absurd hx hdata
    | cons c' r => exact ⟨c', r, rfl⟩
  refine ⟨?_, ?_, ?_, ?_, ?_, rfl, rfl⟩
  · simp only [extractHostPort, hd, extractHostPortCore]
    by_cases h1 : c = '['
    · rw [if_pos h1]; rfl
    · rw [if_neg h1]
      by_cases h2 : lastIndexColon (c :: rest) < 1
      · rw [if_pos h2]; rfl
      · rw [if_neg h2]
        by_cases h3 : lastIndexColon (c :: rest) + 1 = ((c :: rest).length : Int)
        · rw [if_pos h3]; rfl
        · rw [if_neg h3]
          by_cases h4 : parseIP ⟨(c :: rest).take (lastIndexColon (c :: rest)).toNat⟩ = true
          · rw [if_pos h4]; rfl
          · rw [if_neg h4]; rfl
  · intro hhead
    rw [hd] at hhead
    have hc : c = '[' := by simpa using hhead
    simp only [extractHostPort, hd, extractHostPortCore]
    rw [if_pos hc]
  · intro hnc
    simp only [extractHostPort, hd, extractHostPortCore]
    by_cases hc : c = '['
    · rw [if_pos hc]
    · rw [if_neg hc]
      have hlt : lastIndexColon (c :: rest) < 1 := by
        rw [lastIndexColon]
        cases hlci : lastColonIndex (c :: rest) with
        | none => decide
        | some i =>
          have hget := lastColonIndex_get (c :: rest) i hlci
          have hi : i = 0 := by
            by_contra hne0
            exact hnc i (Nat.one_le_iff_ne_zero.mpr hne0) (by rw [hd]; exact hget)
          rw [hi]
          decide
      rw [if_pos hlt]
  · intro hlast
    rw [hd] at hlast
    have hlci := lastColonIndex_getLast (c :: rest) hlast
    have hval : lastIndexColon (c :: rest) = (((c :: rest).length - 1 : Nat) : Int) := by
      rw [lastIndexColon, hlci]
    simp only [extractHostPort, hd, extractHostPortCore]
    by_cases hc : c = '['
    · rw [if_pos hc]
    · rw [if_neg hc, hval]
      by_cases hlt : (((c :: rest).length - 1 : Nat) : Int) < 1
      · rw [if_pos hlt]
      · rw [if_neg hlt]
        have heq : (((c :: rest).length - 1 : Nat) : Int) + 1 =
            ((c :: rest).length : Int) := by omega
        rw [if_pos heq]
  · intro i hlci h1 hne hip
    rw [hd] at hlci hne hip
    have hval : lastIndexColon (c :: rest) = (i : Int) := by
      rw [lastIndexColon, hlci]
    simp only [extractHostPort, hd, extractHostPortCore]
    by_cases hc : c = '['
    · rw [if_pos hc]
    · rw [if_neg hc, hval]
      have hnotlt : ¬ ((i : Int) < 1) := by omega
      rw [if_neg hnotlt]
      have hne' : ¬ ((i : Int) + 1 = ((c :: rest).length : Int)) := by
        intro hcontra
        apply hne
        omega
      rw [if_neg hne']
      have htonat : ((i : Int)).toNat = i := by simp
      rw [htonat, if_pos hip]

/-- Witness for `extractHostPort_spec` at `"example.com:80"` with an
oracle refusing every string (so the split succeeds). -/
theorem extractHostPort_spec_witness :
    ("example.com:80" : String) ≠ "" ∧
    ((extractHostPort (fun _ => false) "example.com:80").isSome = true ∧
     (("example.com:80" : String).data.head? = some '[' →
       extractHostPort (fun _ => false) "example.com:80" = some ("", "")) ∧
     ((∀ i, 1 ≤ i → ("example.com:80" : String).data.get? i ≠ some ':') →
       extractHostPort (fun _ => false) "example.com:80" = some ("", "")) ∧
     (("example.com:80" : String).data.getLast? = some ':' →
       extractHostPort (fun _ => false) "example.com:80" = some ("", "")) ∧
     (∀ i, lastColonIndex ("example.com:80" : String).data = some i → 1 ≤ i →
       i + 1 ≠ ("example.com:80" : String).data.length →
       (fun (_ : String) => false) ⟨("example.com:80" : String).data.take i⟩ = true →
       extractHostPort (fun _ => false) "example.com:80" = some ("", "")) ∧
     extractHostPort (fun _ => false) "" = none ∧
     dialContextHostPort (fun _ => false) "" = none) :=
  ⟨by decide, extractHostPort_spec (fun _ => false) "example.com:80" (by decide)⟩
